import Mathlib

/-
Shallow embedding of the reminder-dedup scheduling core of the
slack-gcal-reminder-bot (source file index.js).

Modelling conventions:
- Instants are integers counting minutes since the Unix epoch.
- A time zone is a function off : Int -> Int giving the UTC offset in
  minutes that the zone applies at a given instant; real zones satisfy
  -840 <= off t <= 840.  The source fixes TIMEZONE to the IANA zone
  America/Los_Angeles and converts instants to calendar dates with
  Intl.DateTimeFormat; here that conversion is ymdInTZ, built from an
  explicit proleptic-Gregorian civil-date function (civilFromDays).
- addDays models result.setDate(result.getDate() + days) for a host
  whose local clock runs in a fixed-offset zone (for example UTC, the
  zone of the documented RUN_ONCE cron deployment): there day addition
  shifts the instant by exactly days * 24h.
- The Google event objects are GEvent records; JavaScript truthiness of
  the optional string fields (empty string is falsy) is modelled by
  truthyStr / truthyId.
- The two module-level Sets remindedDay and remindedWeek together with
  the list of notification requests handed to the Slack sink form the
  state St.  Delivery (slack.chat.postMessage inside sendSlackReminder)
  is an external collaborator modelled by a boolean sink; a false answer
  is a thrown delivery error.  A cycle of checkCalendarAndNotify runs
  the evaluator loop inside try/catch, so it returns the state reached
  when the loop finished or threw (resultState), and a fetch error
  leaves the state untouched.
- sendSlackReminderText is the message text constructed by
  sendSlackReminder; cleanDescription is the sanitizer from the source.
-/

-- ==================== definitions ====================

def isLeap (y : Nat) : Bool := (y % 4 == 0 && y % 100 != 0) || y % 400 == 0

def daysInYear (y : Nat) : Nat := if isLeap y then 366 else 365

def daysInMonth (leap : Bool) (m : Nat) : Nat :=
  if m = 2 then (if leap then 29 else 28)
  else if m = 4 ∨ m = 6 ∨ m = 9 ∨ m = 11 then 30
  else 31

def monthsDaysFuel : Nat → Bool → Nat → Nat
  | 0, _, _ => 0
  | k + 1, leap, m0 => daysInMonth leap m0 + monthsDaysFuel k leap (m0 + 1)

def yearsDaysFuel : Nat → Nat → Nat
  | 0, _ => 0
  | k + 1, y0 => daysInYear y0 + yearsDaysFuel k (y0 + 1)

def yearAndDoyFuel : Nat → Nat → Nat → Nat × Nat
  | 0, y, n => (y, n)
  | fuel + 1, y, n =>
    if n < daysInYear y then (y, n)
    else yearAndDoyFuel fuel (y + 1) (n - daysInYear y)

def monthAndDayFuel : Nat → Bool → Nat → Nat → Nat × Nat
  | 0, _, m, doy => (m, doy + 1)
  | fuel + 1, leap, m, doy =>
    if doy < daysInMonth leap m then (m, doy + 1)
    else monthAndDayFuel fuel leap (m + 1) (doy - daysInMonth leap m)

def civilFromDays (n : Nat) : Nat × Nat × Nat :=
  let p := yearAndDoyFuel n 1970 n
  let q := monthAndDayFuel 11 (isLeap p.1) 1 p.2
  (p.1, q.1, q.2)

def yearsDays (y0 y : Nat) : Nat := yearsDaysFuel (y - y0) y0

def monthsDays (leap : Bool) (m0 m : Nat) : Nat := monthsDaysFuel (m - m0) leap m0

def daysFromCivil (y m d : Nat) : Nat :=
  yearsDays 1970 y + monthsDays (isLeap y) 1 m + (d - 1)

def pad2 (n : Nat) : String := if n < 10 then "0" ++ Nat.repr n else Nat.repr n

def formatYMD (y m d : Nat) : String := Nat.repr y ++ "-" ++ pad2 m ++ "-" ++ pad2 d

def localDay (t : Int) (off : Int → Int) : Int := (t + off t) / 1440

def ymdInTZ (t : Int) (off : Int → Int) : String :=
  let c := civilFromDays (localDay t off).toNat
  formatYMD c.1 c.2.1 c.2.2

def addDays (t : Int) (d : Int) : Int := t + 1440 * d

def dstFallback2024 : Int := (daysFromCivil 2024 11 3 : Nat) * 1440 + 540

def laOffNov2024 (t : Int) : Int := if t < dstFallback2024 then -420 else -480

def nowDstExample : Int := dstFallback2024 - 90

def hasGt : List Char → Bool
  | [] => false
  | c :: cs => (c == '>') || hasGt cs

def hasTag : List Char → Bool
  | [] => false
  | c :: cs => ((c == '<') && hasGt cs) || hasTag cs

def dropThroughGt : List Char → Option (List Char)
  | [] => none
  | c :: cs => if c = '>' then some cs else dropThroughGt cs

def stripTagsFuel : Nat → List Char → List Char
  | 0, l => l
  | _ + 1, [] => []
  | fuel + 1, c :: cs =>
    if c = '<' then
      match dropThroughGt cs with
      | some cs2 => stripTagsFuel fuel cs2
      | none => c :: cs
    else c :: stripTagsFuel fuel cs

def stripTags (l : List Char) : List Char := stripTagsFuel l.length l

def jsWhitespace (c : Char) : Bool := c == ' ' || c == '\t' || c == '\n' || c == '\r'

def jsTrim (l : List Char) : List Char :=
  ((l.dropWhile jsWhitespace).reverse.dropWhile jsWhitespace).reverse

def strippedTrimmed (s : String) : String := String.mk (jsTrim (stripTags s.data))

def cleanDescription : Option String → Option String
  | none => none
  | some desc =>
    let text := strippedTrimmed desc
    if text = "" then none else some text

inductive Threshold where
  | oneDay : Threshold
  | oneWeek : Threshold
deriving DecidableEq

def labelOf : Threshold → String
  | .oneDay => "1 day"
  | .oneWeek => "1 week"

structure EventStart where
  date : Option String
  dateTime : Option Int
deriving DecidableEq

structure GEvent where
  id : Option String
  start : Option EventStart
  summary : Option String
  description : Option String
  htmlLink : Option String
deriving DecidableEq

structure Notification where
  eid : String
  th : Threshold
  text : String
deriving DecidableEq

structure St where
  remindedDay : List String
  remindedWeek : List String
  sent : List Notification
deriving DecidableEq

def initialSt : St := ⟨[], [], []⟩

def truthyStr : Option String → Bool
  | none => false
  | some s => !(s == "")

def truthyId : Option String → Option String
  | none => none
  | some s => if s = "" then none else some s

def eventYMDOf (st : EventStart) (off : Int → Int) : Option String :=
  if truthyStr st.date && st.dateTime.isNone then st.date
  else
    match st.dateTime with
    | some t => some (ymdInTZ t off)
    | none => none

def formatLocalDateTime (t : Int) (off : Int → Int) : String :=
  let lm := t + off t
  let day := (lm / 1440).toNat
  let mins := (lm % 1440).toNat
  let c := civilFromDays day
  formatYMD c.1 c.2.1 c.2.2 ++ " " ++ pad2 (mins / 60) ++ ":" ++ pad2 (mins % 60)

def sendSlackReminderText (e : GEvent) (st : EventStart) (whenLabel : String) (off : Int → Int) : String :=
  let isAllDay := truthyStr st.date && st.dateTime.isNone
  let prettyStart :=
    if isAllDay then (match st.date with | some d => d | none => "")
    else (match st.dateTime with | some t => formatLocalDateTime t off | none => "")
  let descr := cleanDescription e.description
  let base := "⏰ *Upcoming event in " ++ whenLabel ++ "*\n" ++
    "*" ++ (match e.summary with
            | some s => if s = "" then "Untitled event" else s
            | none => "Untitled event") ++ "*\n" ++
    "📅 " ++ prettyStart ++ "\n"
  let withDesc := match descr with
    | some d => base ++ "\n📝 " ++ d ++ "\n"
    | none => base
  match e.htmlLink with
  | some l => if l = "" then withDesc else withDesc ++ "🔗 <" ++ l ++ "|Open in Google Calendar>"
  | none => withDesc

def mkNotif (e : GEvent) (st : EventStart) (id : String) (th : Threshold) (off : Int → Int) : Notification :=
  ⟨id, th, sendSlackReminderText e st (labelOf th) off⟩

def getSet (s : St) : Threshold → List String
  | .oneDay => s.remindedDay
  | .oneWeek => s.remindedWeek

def addToSet (s : St) (th : Threshold) (id : String) : St :=
  match th with
  | .oneDay => { s with remindedDay := s.remindedDay ++ [id] }
  | .oneWeek => { s with remindedWeek := s.remindedWeek ++ [id] }

def fireStep (target : String) (th : Threshold) (sink : String → Threshold → Bool)
    (e : GEvent) (st : EventStart) (off : Int → Int) (id ymd : String) (s : St) : Except St St :=
  if ymd = target ∧ id ∉ getSet s th then
    let s1 : St := { s with sent := s.sent ++ [mkNotif e st id th off] }
    if sink id th then .ok (addToSet s1 th id) else .error s1
  else .ok s

def runEvent (tom wk : String) (off : Int → Int) (sink : String → Threshold → Bool)
    (s : St) (e : GEvent) : Except St St :=
  match truthyId e.id, e.start with
  | some id, some st =>
    match eventYMDOf st off with
    | some ymd =>
      match fireStep tom .oneDay sink e st off id ymd s with
      | .ok s1 => fireStep wk .oneWeek sink e st off id ymd s1
      | .error s1 => .error s1
    | none => .ok s
  | _, _ => .ok s

def runEvents (tom wk : String) (off : Int → Int) (sink : String → Threshold → Bool) :
    St → List GEvent → Except St St
  | s, [] => .ok s
  | s, e :: es =>
    match runEvent tom wk off sink s e with
    | .ok s1 => runEvents tom wk off sink s1 es
    | .error s1 => .error s1

def resultState : Except St St → St
  | .ok s => s
  | .error s => s

structure PollCycle where
  fetch : Except Unit (List GEvent)
  now : Int
  sink : String → Threshold → Bool

def checkCalendarAndNotify (off : Int → Int) (c : PollCycle) (s : St) : St :=
  match c.fetch with
  | .error _ => s
  | .ok events =>
    let tomorrowYMD := ymdInTZ (addDays c.now 1) off
    let weekYMD := ymdInTZ (addDays c.now 7) off
    resultState (runEvents tomorrowYMD weekYMD off c.sink s events)

def runCycles (off : Int → Int) (cs : List PollCycle) (s : St) : St :=
  match cs with
  | [] => s
  | c :: rest => runCycles off rest (checkCalendarAndNotify off c s)

def sentCount (s : St) (id : String) (th : Threshold) : Nat :=
  (s.sent.filter fun n => n.eid = id ∧ n.th = th).length

def pairInv (s : St) (id : String) (th : Threshold) : Prop :=
  sentCount s id th ≤ 1 ∧ (id ∉ getSet s th → sentCount s id th = 0)

def summaryOr (o : Option String) : String :=
  match o with
  | some s => if s = "" then "Untitled event" else s
  | none => "Untitled event"

def descBlockOf (o : Option String) : String :=
  match cleanDescription o with
  | some d => "\n📝 " ++ d ++ "\n"
  | none => ""

def linkBlockOf (o : Option String) : String :=
  match o with
  | some l => if l = "" then "" else "🔗 <" ++ l ++ "|Open in Google Calendar>"
  | none => ""

def utcOff : Int → Int := fun _ => 0

def sinkAllOk : String → Threshold → Bool := fun _ _ => true

def sinkAllFail : String → Threshold → Bool := fun _ _ => false

def evA : GEvent :=
  { id := some "a", start := some { date := some "2024-06-10", dateTime := none },
    summary := some "Standup", description := none, htmlLink := none }

def nowJun9 : Int := (daysFromCivil 2024 6 9 : Nat) * 1440 + 720

def cycleFail : PollCycle := { fetch := .ok [evA], now := nowJun9, sink := sinkAllFail }

def cycleOk : PollCycle := { fetch := .ok [evA], now := nowJun9, sink := sinkAllOk }

def evB : GEvent :=
  { id := some "b", start := some { date := some "2024-06-10", dateTime := none },
    summary := none, description := some "<p>Agenda</p>", htmlLink := some "https://cal.example" }

def errStA : St :=
  { remindedDay := [], remindedWeek := [],
    sent := [mkNotif evA { date := some "2024-06-10", dateTime := none } "a"
      Threshold.oneDay utcOff] }


-- ==================== supporting lemmas ====================

theorem daysInYear_pos (y : Nat) : 365 ≤ daysInYear y := by
  unfold daysInYear; split <;> omega

theorem daysInMonth_pos (leap : Bool) (m : Nat) : 28 ≤ daysInMonth leap m := by
  unfold daysInMonth; split
  · split <;> omega
  · split <;> omega

theorem daysInMonth_le (leap : Bool) (m : Nat) : daysInMonth leap m ≤ 31 := by
  unfold daysInMonth; split
  · split <;> omega
  · split <;> omega

theorem monthsDaysFuel_succ (k : Nat) (leap : Bool) (m0 : Nat) :
    monthsDaysFuel (k + 1) leap m0 = daysInMonth leap m0 + monthsDaysFuel k leap (m0 + 1) := rfl

theorem yearsDaysFuel_succ (k y0 : Nat) :
    yearsDaysFuel (k + 1) y0 = daysInYear y0 + yearsDaysFuel k (y0 + 1) := rfl

theorem monthsDaysFuel_year (y : Nat) : monthsDaysFuel 12 (isLeap y) 1 = daysInYear y := by
  unfold daysInYear
  cases h : isLeap y <;> simp [h] <;> rfl

theorem yearAndDoyFuel_spec (fuel : Nat) : ∀ y n, n ≤ fuel →
    yearsDaysFuel ((yearAndDoyFuel fuel y n).1 - y) y + (yearAndDoyFuel fuel y n).2 = n ∧
    (yearAndDoyFuel fuel y n).2 < daysInYear (yearAndDoyFuel fuel y n).1 ∧
    y ≤ (yearAndDoyFuel fuel y n).1 := by
  induction fuel with
  | zero =>
    intro y n hn
    have hy := daysInYear_pos y
    simp only [yearAndDoyFuel]
    refine ⟨?_, by first | omega | (dsimp; omega), by first | omega | (dsimp; omega)⟩
    dsimp
    simp [yearsDaysFuel]
  | succ fuel ih =>
    intro y n hn
    have hy := daysInYear_pos y
    simp only [yearAndDoyFuel]
    split
    · refine ⟨?_, by first | omega | (dsimp; omega), by first | omega | (dsimp; omega)⟩
      dsimp
      simp [yearsDaysFuel]
    · have hrec := ih (y + 1) (n - daysInYear y) (by omega)
      obtain ⟨h1, h2, h3⟩ := hrec
      refine ⟨?_, h2, by omega⟩
      have hstep : (yearAndDoyFuel fuel (y + 1) (n - daysInYear y)).1 - y =
          ((yearAndDoyFuel fuel (y + 1) (n - daysInYear y)).1 - (y + 1)) + 1 := by omega
      rw [hstep, yearsDaysFuel_succ]
      omega

theorem monthAndDayFuel_spec (fuel : Nat) : ∀ (leap : Bool) m doy,
    doy < monthsDaysFuel (fuel + 1) leap m →
    monthsDaysFuel ((monthAndDayFuel fuel leap m doy).1 - m) leap m +
      ((monthAndDayFuel fuel leap m doy).2 - 1) = doy ∧
    1 ≤ (monthAndDayFuel fuel leap m doy).2 ∧
    (monthAndDayFuel fuel leap m doy).2 ≤ daysInMonth leap (monthAndDayFuel fuel leap m doy).1 ∧
    m ≤ (monthAndDayFuel fuel leap m doy).1 ∧
    (monthAndDayFuel fuel leap m doy).1 ≤ m + fuel := by
  induction fuel with
  | zero =>
    intro leap m doy h
    rw [monthsDaysFuel_succ] at h
    simp only [monthsDaysFuel] at h
    simp only [monthAndDayFuel]
    refine ⟨?_, by first | omega | (dsimp; omega), by first | omega | (dsimp; omega), by first | omega | (dsimp; omega), by first | omega | (dsimp; omega)⟩
    dsimp
    have hz : m - m = 0 := by omega
    simp [hz, monthsDaysFuel]
  | succ fuel ih =>
    intro leap m doy h
    rw [monthsDaysFuel_succ] at h
    simp only [monthAndDayFuel]
    split
    · refine ⟨?_, by first | omega | (dsimp; omega), by first | omega | (dsimp; omega), by first | omega | (dsimp; omega), by first | omega | (dsimp; omega)⟩
      dsimp
      have hz : m - m = 0 := by omega
      simp [hz, monthsDaysFuel]
    · have hdim := daysInMonth_pos leap m
      have hrec := ih leap (m + 1) (doy - daysInMonth leap m) (by omega)
      obtain ⟨h1, h2, h3, h4, h5⟩ := hrec
      refine ⟨?_, h2, h3, by omega, by omega⟩
      have hstep : (monthAndDayFuel fuel leap (m + 1) (doy - daysInMonth leap m)).1 - m =
          ((monthAndDayFuel fuel leap (m + 1) (doy - daysInMonth leap m)).1 - (m + 1)) + 1 := by
        omega
      rw [hstep, monthsDaysFuel_succ]
      omega

theorem civilFromDays_roundtrip (n : Nat) :
    daysFromCivil (civilFromDays n).1 (civilFromDays n).2.1 (civilFromDays n).2.2 = n := by
  obtain ⟨hy1, hy2, hy3⟩ := yearAndDoyFuel_spec n 1970 n (Nat.le_refl n)
  have hdoy : (yearAndDoyFuel n 1970 n).2 < monthsDaysFuel 12 (isLeap (yearAndDoyFuel n 1970 n).1) 1 := by
    rw [monthsDaysFuel_year]; exact hy2
  obtain ⟨hm1, hm2, hm3, hm4, hm5⟩ :=
    monthAndDayFuel_spec 11 (isLeap (yearAndDoyFuel n 1970 n).1) 1 (yearAndDoyFuel n 1970 n).2 hdoy
  simp only [civilFromDays, daysFromCivil, yearsDays, monthsDays]
  omega

theorem civilFromDays_inj (n1 n2 : Nat) (h : civilFromDays n1 = civilFromDays n2) : n1 = n2 := by
  have r1 := civilFromDays_roundtrip n1
  have r2 := civilFromDays_roundtrip n2
  rw [h] at r1
  omega

theorem civilFromDays_ranges (n : Nat) :
    1970 ≤ (civilFromDays n).1 ∧
    1 ≤ (civilFromDays n).2.1 ∧ (civilFromDays n).2.1 ≤ 12 ∧
    1 ≤ (civilFromDays n).2.2 ∧ (civilFromDays n).2.2 ≤ 31 := by
  obtain ⟨hy1, hy2, hy3⟩ := yearAndDoyFuel_spec n 1970 n (Nat.le_refl n)
  have hdoy : (yearAndDoyFuel n 1970 n).2 < monthsDaysFuel 12 (isLeap (yearAndDoyFuel n 1970 n).1) 1 := by
    rw [monthsDaysFuel_year]; exact hy2
  obtain ⟨hm1, hm2, hm3, hm4, hm5⟩ :=
    monthAndDayFuel_spec 11 (isLeap (yearAndDoyFuel n 1970 n).1) 1 (yearAndDoyFuel n 1970 n).2 hdoy
  have hdm := daysInMonth_le (isLeap (yearAndDoyFuel n 1970 n).1)
    (monthAndDayFuel 11 (isLeap (yearAndDoyFuel n 1970 n).1) 1 (yearAndDoyFuel n 1970 n).2).1
  simp only [civilFromDays]
  omega

theorem yearsDaysFuel_add (a b y0 : Nat) :
    yearsDaysFuel (a + b) y0 = yearsDaysFuel a y0 + yearsDaysFuel b (y0 + a) := by
  induction a generalizing y0 with
  | zero => simp [yearsDaysFuel]
  | succ a ih =>
    have : a + 1 + b = (a + b) + 1 := by omega
    rw [this, yearsDaysFuel_succ, yearsDaysFuel_succ, ih (y0 + 1)]
    have : y0 + 1 + a = y0 + (a + 1) := by omega
    rw [this]
    omega

theorem yearsDaysFuel_lb (k y0 : Nat) : 365 * k ≤ yearsDaysFuel k y0 := by
  induction k generalizing y0 with
  | zero => simp [yearsDaysFuel]
  | succ k ih =>
    rw [yearsDaysFuel_succ]
    have := daysInYear_pos y0
    have := ih (y0 + 1)
    omega

theorem monthsDaysFuel_leap_free (k : Nat) : ∀ (l1 l2 : Bool) m0, 3 ≤ m0 →
    monthsDaysFuel k l1 m0 = monthsDaysFuel k l2 m0 := by
  induction k with
  | zero => intro l1 l2 m0 h; rfl
  | succ k ih =>
    intro l1 l2 m0 h
    rw [monthsDaysFuel_succ, monthsDaysFuel_succ, ih l1 l2 (m0 + 1) (by omega)]
    have hdm : daysInMonth l1 m0 = daysInMonth l2 m0 := by
      unfold daysInMonth
      split
      · omega
      · rfl
    rw [hdm]

theorem monthsDaysFuel_leap_close (k : Nat) (l1 l2 : Bool) :
    monthsDaysFuel k l1 1 ≤ monthsDaysFuel k l2 1 + 1 := by
  match k with
  | 0 => simp [monthsDaysFuel]
  | 1 => simp [monthsDaysFuel, daysInMonth]
  | k + 2 =>
    rw [monthsDaysFuel_succ, monthsDaysFuel_succ, monthsDaysFuel_succ, monthsDaysFuel_succ,
      monthsDaysFuel_leap_free k l1 l2 3 (by omega)]
    norm_num
    have h1 : daysInMonth l1 1 = daysInMonth l2 1 := by unfold daysInMonth; simp
    have h2 : daysInMonth l1 2 ≤ daysInMonth l2 2 + 1 := by
      unfold daysInMonth; cases l1 <;> cases l2 <;> simp
    omega

theorem daysFromCivil_year_lt (y1 y2 m d : Nat) (h70 : 1970 ≤ y1) (h : y1 < y2) :
    daysFromCivil y1 m d + 337 ≤ daysFromCivil y2 m d := by
  unfold daysFromCivil yearsDays monthsDays
  have hsplit : y2 - 1970 = (y1 - 1970) + (y2 - y1) := by omega
  rw [hsplit, yearsDaysFuel_add]
  have hlb := yearsDaysFuel_lb (y2 - y1) (1970 + (y1 - 1970))
  have hcl := monthsDaysFuel_leap_close (m - 1) (isLeap y1) (isLeap y2)
  omega

set_option maxRecDepth 10000 in
theorem pad2_len : ∀ n < 100, (pad2 n).length = 2 := by decide

set_option maxRecDepth 10000 in
theorem pad2_inj : ∀ a < 100, ∀ b < 100, pad2 a = pad2 b → a = b := by decide

theorem pad2_data_len (n : Nat) (h : n < 100) : (pad2 n).data.length = 2 := by
  exact pad2_len n h

theorem formatYMD_data (y m d : Nat) :
    (formatYMD y m d).data =
      (Nat.repr y).data ++ ('-' :: (pad2 m).data ++ '-' :: (pad2 d).data) := by
  simp [formatYMD, String.data_append]

theorem formatYMD_md_inj (y1 m1 d1 y2 m2 d2 : Nat)
    (hm1 : m1 < 100) (hd1 : d1 < 100) (hm2 : m2 < 100) (hd2 : d2 < 100)
    (h : formatYMD y1 m1 d1 = formatYMD y2 m2 d2) : m1 = m2 ∧ d1 = d2 := by
  have hd : (formatYMD y1 m1 d1).data = (formatYMD y2 m2 d2).data := by rw [h]
  rw [formatYMD_data, formatYMD_data] at hd
  have hlen : ('-' :: (pad2 m1).data ++ '-' :: (pad2 d1).data).length =
      ('-' :: (pad2 m2).data ++ '-' :: (pad2 d2).data).length := by
    simp [pad2_data_len m1 hm1, pad2_data_len m2 hm2, pad2_data_len d1 hd1, pad2_data_len d2 hd2]
  obtain ⟨-, hsuf⟩ := List.append_inj' hd hlen
  have hsuf2 : (pad2 m1).data ++ '-' :: (pad2 d1).data = (pad2 m2).data ++ '-' :: (pad2 d2).data := by
    injection hsuf
  obtain ⟨hpm, hpd⟩ := List.append_inj hsuf2 (by rw [pad2_data_len m1 hm1, pad2_data_len m2 hm2])
  have hpd2 : (pad2 d1).data = (pad2 d2).data := by injection hpd
  constructor
  · exact pad2_inj m1 hm1 m2 hm2 (by apply String.ext; exact hpm)
  · exact pad2_inj d1 hd1 d2 hd2 (by apply String.ext; exact hpd2)

theorem civil_md_differ (n1 n2 : Nat) (hlt : n1 < n2) (hgap : n2 ≤ n1 + 27) :
    ¬((civilFromDays n1).2.1 = (civilFromDays n2).2.1 ∧
      (civilFromDays n1).2.2 = (civilFromDays n2).2.2) := by
  rintro ⟨hm, hd⟩
  have r1 := civilFromDays_roundtrip n1
  have r2 := civilFromDays_roundtrip n2
  obtain ⟨hy70a, -, -, -, -⟩ := civilFromDays_ranges n1
  obtain ⟨hy70b, -, -, -, -⟩ := civilFromDays_ranges n2
  rcases Nat.lt_trichotomy (civilFromDays n1).1 (civilFromDays n2).1 with hy | hy | hy
  · have hstep := daysFromCivil_year_lt (civilFromDays n1).1 (civilFromDays n2).1
      (civilFromDays n2).2.1 (civilFromDays n2).2.2 hy70a hy
    rw [hm, hd] at r1
    omega
  · have : civilFromDays n1 = civilFromDays n2 := by
      have e1 : civilFromDays n1 = ((civilFromDays n1).1, (civilFromDays n1).2.1, (civilFromDays n1).2.2) := rfl
      have e2 : civilFromDays n2 = ((civilFromDays n2).1, (civilFromDays n2).2.1, (civilFromDays n2).2.2) := rfl
      rw [e1, e2, hy, hm, hd]
    have := civilFromDays_inj n1 n2 this
    omega
  · have hstep := daysFromCivil_year_lt (civilFromDays n2).1 (civilFromDays n1).1
      (civilFromDays n1).2.1 (civilFromDays n1).2.2 hy70b hy
    rw [← hm, ← hd] at r2
    omega

theorem formatYMD_civil_ne (n1 n2 : Nat) (hlt : n1 < n2) (hgap : n2 ≤ n1 + 27) :
    formatYMD (civilFromDays n1).1 (civilFromDays n1).2.1 (civilFromDays n1).2.2 ≠
    formatYMD (civilFromDays n2).1 (civilFromDays n2).2.1 (civilFromDays n2).2.2 := by
  intro h
  obtain ⟨-, -, hm1, -, hd1⟩ := civilFromDays_ranges n1
  obtain ⟨-, -, hm2, -, hd2⟩ := civilFromDays_ranges n2
  have := formatYMD_md_inj _ _ _ _ _ _ (by omega) (by omega) (by omega) (by omega) h
  exact civil_md_differ n1 n2 hlt hgap ⟨this.1, this.2⟩

theorem tomorrow_ne_week (off : Int → Int) (now : Int)
    (hb : ∀ u : Int, -840 ≤ off u ∧ off u ≤ 840) (hn : 840 ≤ now) :
    ymdInTZ (addDays now 1) off ≠ ymdInTZ (addDays now 7) off := by
  have h1 := hb (addDays now 1)
  have h7 := hb (addDays now 7)
  unfold ymdInTZ localDay addDays
  unfold addDays at h1 h7
  apply formatYMD_civil_ne
  · omega
  · omega

theorem dropThroughGt_len : ∀ l cs2, dropThroughGt l = some cs2 → cs2.length < l.length := by
  intro l
  induction l with
  | nil => intro cs2 h; simp [dropThroughGt] at h
  | cons c cs ih =>
    intro cs2 h
    simp only [dropThroughGt] at h
    split at h
    · cases h; simp
    · have := ih cs2 h
      simp
      omega

theorem dropThroughGt_none : ∀ l, dropThroughGt l = none → hasGt l = false := by
  intro l
  induction l with
  | nil => intro h; rfl
  | cons c cs ih =>
    intro h
    simp only [dropThroughGt] at h
    split at h
    · cases h
    · simp only [hasGt, ih h, Bool.or_false]
      simp_all

theorem hasTag_of_no_gt : ∀ l, hasGt l = false → hasTag l = false := by
  intro l
  induction l with
  | nil => intro h; rfl
  | cons c cs ih =>
    intro h
    simp only [hasGt, Bool.or_eq_false_iff] at h
    simp only [hasTag, ih h.2, Bool.or_false, h.1, Bool.and_eq_false_iff]
    right
    exact h.2

theorem stripTagsFuel_clean : ∀ fuel l, l.length ≤ fuel → hasTag (stripTagsFuel fuel l) = false := by
  intro fuel
  induction fuel with
  | zero =>
    intro l hl
    have : l = [] := by
      cases l with
      | nil => rfl
      | cons c cs => simp at hl
    subst this
    rfl
  | succ fuel ih =>
    intro l hl
    cases l with
    | nil => rfl
    | cons c cs =>
      simp only [stripTagsFuel]
      split
      · cases hdrop : dropThroughGt cs with
        | some cs2 =>
          have hlen := dropThroughGt_len cs cs2 hdrop
          simp only [List.length_cons] at hl
          exact ih cs2 (by omega)
        | none =>
          have hgt := dropThroughGt_none cs hdrop
          simp only [hasTag, hasTag_of_no_gt cs hgt, Bool.or_false, hgt, Bool.and_false]
      · simp only [List.length_cons] at hl
        simp only [hasTag, ih cs (by omega), Bool.or_false, Bool.and_eq_false_iff]
        left
        simp_all

theorem hasGt_append (a b : List Char) : hasGt (a ++ b) = (hasGt a || hasGt b) := by
  induction a with
  | nil => simp [hasGt]
  | cons c cs ih => simp [hasGt, ih, Bool.or_assoc]

theorem hasTag_append_left (a b : List Char) (h : hasTag (a ++ b) = false) : hasTag a = false := by
  induction a with
  | nil => rfl
  | cons c cs ih =>
    simp only [List.cons_append, hasTag, Bool.or_eq_false_iff, Bool.and_eq_false_iff] at h ⊢
    obtain ⟨h1, h2⟩ := h
    refine ⟨?_, ih h2⟩
    rcases h1 with h1 | h1
    · exact Or.inl h1
    · right
      have h1b : hasGt (cs ++ b) = false := h1
      rw [hasGt_append] at h1b
      simp only [Bool.or_eq_false_iff] at h1b
      exact h1b.1

theorem hasTag_append_right (a b : List Char) (h : hasTag (a ++ b) = false) : hasTag b = false := by
  induction a with
  | nil => simpa using h
  | cons c cs ih =>
    simp only [List.cons_append, hasTag, Bool.or_eq_false_iff] at h
    exact ih h.2

theorem hasTag_suffix (a l : List Char) (hsuf : a <:+ l) (h : hasTag l = false) : hasTag a = false := by
  obtain ⟨t, ht⟩ := hsuf
  subst ht
  exact hasTag_append_right t a h

theorem hasTag_prefix (a l : List Char) (hpre : a <+: l) (h : hasTag l = false) : hasTag a = false := by
  obtain ⟨t, ht⟩ := hpre
  subst ht
  exact hasTag_append_left a t h

theorem jsTrim_clean (l : List Char) (h : hasTag l = false) : hasTag (jsTrim l) = false := by
  unfold jsTrim
  have h1 : hasTag (l.dropWhile jsWhitespace) = false :=
    hasTag_suffix _ l (List.dropWhile_suffix jsWhitespace) h
  apply hasTag_prefix _ (l.dropWhile jsWhitespace) _ h1
  have hsuf : (l.dropWhile jsWhitespace).reverse.dropWhile jsWhitespace <:+
      (l.dropWhile jsWhitespace).reverse := List.dropWhile_suffix jsWhitespace
  obtain ⟨t, ht⟩ := hsuf
  refine ⟨t.reverse, ?_⟩
  have := congrArg List.reverse ht
  simpa using this

theorem strippedTrimmed_clean (s : String) : hasTag (strippedTrimmed s).data = false := by
  unfold strippedTrimmed
  exact jsTrim_clean _ (stripTagsFuel_clean s.data.length s.data (Nat.le_refl _))

theorem getSet_sent_update (s : St) (l : List Notification) (th : Threshold) :
    getSet { s with sent := l } th = getSet s th := by
  cases th <;> rfl

theorem getSet_addToSet (s : St) (th : Threshold) (id : String) (th2 : Threshold) :
    getSet (addToSet s th id) th2 =
      if th = th2 then getSet s th2 ++ [id] else getSet s th2 := by
  cases th <;> cases th2 <;> simp [addToSet, getSet]

theorem sent_addToSet (s : St) (th : Threshold) (id : String) :
    (addToSet s th id).sent = s.sent := by
  cases th <;> rfl

theorem sentCount_append_one (s : St) (n : Notification) (id : String) (th : Threshold) :
    sentCount { s with sent := s.sent ++ [n] } id th =
      sentCount s id th + (if n.eid = id ∧ n.th = th then 1 else 0) := by
  simp only [sentCount, List.filter_append]
  split
  · simp_all
  · simp_all

theorem sentCount_addToSet (s : St) (th : Threshold) (id : String) (id2 : String) (th2 : Threshold) :
    sentCount (addToSet s th id) id2 th2 = sentCount s id2 th2 := by
  cases th <;> rfl

theorem fireStep_ok_cases (target : String) (th : Threshold) (sink : String → Threshold → Bool)
    (e : GEvent) (st : EventStart) (off : Int → Int) (id ymd : String) (s s2 : St)
    (h : fireStep target th sink e st off id ymd s = .ok s2) :
    (s2 = s ∧ ¬(ymd = target ∧ id ∉ getSet s th)) ∨
    (ymd = target ∧ id ∉ getSet s th ∧ sink id th = true ∧
      s2 = addToSet { s with sent := s.sent ++ [mkNotif e st id th off] } th id) := by
  unfold fireStep at h
  split at h
  · split at h
    · simp only [Except.ok.injEq] at h
      right
      subst h
      simp_all
    · simp at h
  · simp only [Except.ok.injEq] at h
    left
    subst h
    simp_all

theorem fireStep_error_cases (target : String) (th : Threshold) (sink : String → Threshold → Bool)
    (e : GEvent) (st : EventStart) (off : Int → Int) (id ymd : String) (s s2 : St)
    (h : fireStep target th sink e st off id ymd s = .error s2) :
    ymd = target ∧ id ∉ getSet s th ∧ sink id th = false ∧
      s2 = { s with sent := s.sent ++ [mkNotif e st id th off] } := by
  unfold fireStep at h
  split at h
  · split at h
    · simp at h
    · simp only [Except.error.injEq] at h
      subst h
      simp_all
  · simp at h

theorem runEvent_cases (tom wk : String) (off : Int → Int) (sink : String → Threshold → Bool)
    (s : St) (e : GEvent) :
    runEvent tom wk off sink s e = .ok s ∨
    (∃ id st ymd, truthyId e.id = some id ∧ e.start = some st ∧ eventYMDOf st off = some ymd ∧
      ((∃ s1, fireStep tom .oneDay sink e st off id ymd s = .ok s1 ∧
          runEvent tom wk off sink s e = fireStep wk .oneWeek sink e st off id ymd s1) ∨
       (∃ s1, fireStep tom .oneDay sink e st off id ymd s = .error s1 ∧
          runEvent tom wk off sink s e = .error s1))) := by
  cases htid : truthyId e.id with
  | none =>
    left
    simp only [runEvent, htid]
  | some id =>
    cases hst : e.start with
    | none =>
      left
      simp only [runEvent, htid, hst]
    | some st =>
      cases hymd : eventYMDOf st off with
      | none =>
        left
        simp only [runEvent, htid, hst, hymd]
      | some ymd =>
        right
        refine ⟨id, st, ymd, rfl, rfl, hymd, ?_⟩
        cases hfs : fireStep tom .oneDay sink e st off id ymd s with
        | ok s1 =>
          left
          refine ⟨s1, rfl, ?_⟩
          simp only [runEvent, htid, hst, hymd, hfs]
        | error s1 =>
          right
          refine ⟨s1, rfl, ?_⟩
          simp only [runEvent, htid, hst, hymd, hfs]

theorem fireStep_result_marked (target : String) (th : Threshold) (sink : String → Threshold → Bool)
    (e : GEvent) (st : EventStart) (off : Int → Int) (id ymd : String) (s : St)
    (id0 : String) (th0 : Threshold) (h : id0 ∈ getSet s th0) :
    id0 ∈ getSet (resultState (fireStep target th sink e st off id ymd s)) th0 ∧
    sentCount (resultState (fireStep target th sink e st off id ymd s)) id0 th0 =
      sentCount s id0 th0 := by
  cases hfs : fireStep target th sink e st off id ymd s with
  | ok s2 =>
    rcases fireStep_ok_cases target th sink e st off id ymd s s2 hfs with ⟨rfl, -⟩ | ⟨-, hnm, -, rfl⟩
    · exact ⟨h, rfl⟩
    · constructor
      · rw [resultState, getSet_addToSet]
        split <;> rw [getSet_sent_update] <;> simp [h]
      · rw [resultState, sentCount_addToSet, sentCount_append_one]
        have hne : ¬((mkNotif e st id th off).eid = id0 ∧ (mkNotif e st id th off).th = th0) := by
          rintro ⟨h1, h2⟩
          simp only [mkNotif] at h1 h2
          subst h1; subst h2
          exact hnm h
        simp [hne]
  | error s2 =>
    obtain ⟨-, hnm, -, rfl⟩ := fireStep_error_cases target th sink e st off id ymd s s2 hfs
    constructor
    · rw [resultState, getSet_sent_update]; exact h
    · rw [resultState, sentCount_append_one]
      have hne : ¬((mkNotif e st id th off).eid = id0 ∧ (mkNotif e st id th off).th = th0) := by
        rintro ⟨h1, h2⟩
        simp only [mkNotif] at h1 h2
        subst h1; subst h2
        exact hnm h
      simp [hne]

theorem runEvent_result_marked (tom wk : String) (off : Int → Int) (sink : String → Threshold → Bool)
    (s : St) (e : GEvent) (id0 : String) (th0 : Threshold) (h : id0 ∈ getSet s th0) :
    id0 ∈ getSet (resultState (runEvent tom wk off sink s e)) th0 ∧
    sentCount (resultState (runEvent tom wk off sink s e)) id0 th0 = sentCount s id0 th0 := by
  rcases runEvent_cases tom wk off sink s e with hr | ⟨id, st, ymd, -, -, -, ⟨s1, hfs, hr⟩ | ⟨s1, hfs, hr⟩⟩
  · rw [hr]; exact ⟨h, rfl⟩
  · have h1 := fireStep_result_marked tom .oneDay sink e st off id ymd s id0 th0 h
    rw [hfs] at h1
    have h2 := fireStep_result_marked wk .oneWeek sink e st off id ymd s1 id0 th0 h1.1
    rw [hr]
    exact ⟨h2.1, by rw [h2.2]; exact h1.2⟩
  · have h1 := fireStep_result_marked tom .oneDay sink e st off id ymd s id0 th0 h
    rw [hfs] at h1
    rw [hr]
    exact h1

theorem fireStep_pairInv (target : String) (th : Threshold) (sink : String → Threshold → Bool)
    (e : GEvent) (st : EventStart) (off : Int → Int) (id ymd : String) (s : St)
    (id0 : String) (th0 : Threshold) (hsink : sink id0 th0 = true) (h : pairInv s id0 th0) :
    pairInv (resultState (fireStep target th sink e st off id ymd s)) id0 th0 := by
  obtain ⟨hle, hz⟩ := h
  cases hfs : fireStep target th sink e st off id ymd s with
  | ok s2 =>
    rcases fireStep_ok_cases target th sink e st off id ymd s s2 hfs with ⟨rfl, -⟩ | ⟨-, hnm, -, rfl⟩
    · exact ⟨hle, hz⟩
    · by_cases hpair : id = id0 ∧ th = th0
      · obtain ⟨rfl, rfl⟩ := hpair
        have hz0 := hz hnm
        constructor
        · rw [resultState, sentCount_addToSet, sentCount_append_one]
          simp [mkNotif, hz0]
        · intro hmem
          exfalso
          apply hmem
          rw [resultState, getSet_addToSet]
          simp [getSet_sent_update]
      · constructor
        · rw [resultState, sentCount_addToSet, sentCount_append_one]
          simp only [mkNotif]
          rw [if_neg hpair]
          omega
        · intro hmem
          rw [resultState, sentCount_addToSet, sentCount_append_one]
          simp only [mkNotif]
          rw [if_neg hpair]
          have hmem0 : id0 ∉ getSet s th0 := by
            intro hin
            apply hmem
            rw [resultState, getSet_addToSet]
            split
            · rw [getSet_sent_update]
              simp [hin]
            · rw [getSet_sent_update]
              exact hin
          rw [hz hmem0]
  | error s2 =>
    obtain ⟨-, hnm, hsf, rfl⟩ := fireStep_error_cases target th sink e st off id ymd s s2 hfs
    have hpair : ¬(id = id0 ∧ th = th0) := by
      rintro ⟨rfl, rfl⟩
      rw [hsink] at hsf
      cases hsf
    constructor
    · rw [resultState, sentCount_append_one]
      simp only [mkNotif]
      rw [if_neg hpair]
      omega
    · intro hmem
      rw [resultState, sentCount_append_one]
      simp only [mkNotif]
      rw [if_neg hpair]
      rw [resultState, getSet_sent_update] at hmem
      rw [hz hmem]

theorem runEvent_pairInv (tom wk : String) (off : Int → Int) (sink : String → Threshold → Bool)
    (s : St) (e : GEvent) (id0 : String) (th0 : Threshold)
    (hsink : sink id0 th0 = true) (h : pairInv s id0 th0) :
    pairInv (resultState (runEvent tom wk off sink s e)) id0 th0 := by
  rcases runEvent_cases tom wk off sink s e with hr | ⟨id, st, ymd, -, -, -, ⟨s1, hfs, hr⟩ | ⟨s1, hfs, hr⟩⟩
  · rw [hr]; exact h
  · have h1 := fireStep_pairInv tom .oneDay sink e st off id ymd s id0 th0 hsink h
    rw [hfs] at h1
    have h2 := fireStep_pairInv wk .oneWeek sink e st off id ymd s1 id0 th0 hsink h1
    rw [hr]
    exact h2
  · have h1 := fireStep_pairInv tom .oneDay sink e st off id ymd s id0 th0 hsink h
    rw [hfs] at h1
    rw [hr]
    exact h1

theorem runEvents_pairInv (tom wk : String) (off : Int → Int) (sink : String → Threshold → Bool)
    (es : List GEvent) : ∀ (s : St) (id0 : String) (th0 : Threshold),
    sink id0 th0 = true → pairInv s id0 th0 →
    pairInv (resultState (runEvents tom wk off sink s es)) id0 th0 := by
  induction es with
  | nil => intro s id0 th0 hsink h; exact h
  | cons e es ih =>
    intro s id0 th0 hsink h
    have h1 := runEvent_pairInv tom wk off sink s e id0 th0 hsink h
    simp only [runEvents]
    cases hre : runEvent tom wk off sink s e with
    | ok s1 =>
      rw [hre] at h1
      exact ih s1 id0 th0 hsink h1
    | error s1 =>
      rw [hre] at h1
      exact h1

theorem checkCalendar_pairInv (off : Int → Int) (c : PollCycle) (s : St)
    (id0 : String) (th0 : Threshold) (hsink : c.sink id0 th0 = true) (h : pairInv s id0 th0) :
    pairInv (checkCalendarAndNotify off c s) id0 th0 := by
  unfold checkCalendarAndNotify
  cases c.fetch with
  | error u => exact h
  | ok events => exact runEvents_pairInv _ _ off c.sink events s id0 th0 hsink h

theorem runCycles_pairInv (off : Int → Int) (cs : List PollCycle) : ∀ (s : St)
    (id0 : String) (th0 : Threshold), (∀ c ∈ cs, c.sink id0 th0 = true) → pairInv s id0 th0 →
    pairInv (runCycles off cs s) id0 th0 := by
  induction cs with
  | nil => intro s id0 th0 hsink h; exact h
  | cons c cs ih =>
    intro s id0 th0 hsink h
    simp only [runCycles]
    exact ih _ id0 th0 (fun c2 hc2 => hsink c2 (by simp [hc2]))
      (checkCalendar_pairInv off c s id0 th0 (hsink c (by simp)) h)

theorem runEvents_result_marked (tom wk : String) (off : Int → Int)
    (sink : String → Threshold → Bool) (es : List GEvent) : ∀ (s : St) (id0 : String)
    (th0 : Threshold), id0 ∈ getSet s th0 →
    id0 ∈ getSet (resultState (runEvents tom wk off sink s es)) th0 ∧
    sentCount (resultState (runEvents tom wk off sink s es)) id0 th0 = sentCount s id0 th0 := by
  induction es with
  | nil => intro s id0 th0 h; exact ⟨h, rfl⟩
  | cons e es ih =>
    intro s id0 th0 h
    have h1 := runEvent_result_marked tom wk off sink s e id0 th0 h
    simp only [runEvents]
    cases hre : runEvent tom wk off sink s e with
    | ok s1 =>
      rw [hre] at h1
      have h2 := ih s1 id0 th0 h1.1
      exact ⟨h2.1, by rw [h2.2]; exact h1.2⟩
    | error s1 =>
      rw [hre] at h1
      exact h1

theorem fireStep_mark_needs_sink (target : String) (th : Threshold)
    (sink : String → Threshold → Bool) (e : GEvent) (st : EventStart) (off : Int → Int)
    (id ymd : String) (s : St) (id0 : String) (th0 : Threshold)
    (hnot : id0 ∉ getSet s th0)
    (hmark : id0 ∈ getSet (resultState (fireStep target th sink e st off id ymd s)) th0) :
    sink id0 th0 = true := by
  cases hfs : fireStep target th sink e st off id ymd s with
  | ok s2 =>
    rw [hfs] at hmark
    rcases fireStep_ok_cases target th sink e st off id ymd s s2 hfs with ⟨rfl, -⟩ | ⟨-, -, hsk, rfl⟩
    · exact absurd hmark hnot
    · rw [resultState, getSet_addToSet] at hmark
      split at hmark
      · rw [getSet_sent_update] at hmark
        rcases List.mem_append.mp hmark with hin | hin
        · exact absurd hin hnot
        · simp only [List.mem_singleton] at hin
          subst hin
          rename_i hth
          subst hth
          exact hsk
      · rw [getSet_sent_update] at hmark
        exact absurd hmark hnot
  | error s2 =>
    rw [hfs] at hmark
    obtain ⟨-, -, -, rfl⟩ := fireStep_error_cases target th sink e st off id ymd s s2 hfs
    rw [resultState, getSet_sent_update] at hmark
    exact absurd hmark hnot

theorem runEvent_mark_needs_sink (tom wk : String) (off : Int → Int)
    (sink : String → Threshold → Bool) (s : St) (e : GEvent) (id0 : String) (th0 : Threshold)
    (hnot : id0 ∉ getSet s th0)
    (hmark : id0 ∈ getSet (resultState (runEvent tom wk off sink s e)) th0) :
    sink id0 th0 = true := by
  rcases runEvent_cases tom wk off sink s e with hr | ⟨id, st, ymd, -, -, -, ⟨s1, hfs, hr⟩ | ⟨s1, hfs, hr⟩⟩
  · rw [hr] at hmark; exact absurd hmark hnot
  · rw [hr] at hmark
    by_cases hmid : id0 ∈ getSet s1 th0
    · have : id0 ∈ getSet (resultState (fireStep tom .oneDay sink e st off id ymd s)) th0 := by
        rw [hfs]; exact hmid
      exact fireStep_mark_needs_sink tom .oneDay sink e st off id ymd s id0 th0 hnot this
    · exact fireStep_mark_needs_sink wk .oneWeek sink e st off id ymd s1 id0 th0 hmid hmark
  · rw [hr] at hmark
    have : id0 ∈ getSet (resultState (fireStep tom .oneDay sink e st off id ymd s)) th0 := by
      rw [hfs]; exact hmark
    exact fireStep_mark_needs_sink tom .oneDay sink e st off id ymd s id0 th0 hnot this

theorem runEvents_mark_needs_sink (tom wk : String) (off : Int → Int)
    (sink : String → Threshold → Bool) (es : List GEvent) : ∀ (s : St) (id0 : String)
    (th0 : Threshold), id0 ∉ getSet s th0 →
    id0 ∈ getSet (resultState (runEvents tom wk off sink s es)) th0 →
    sink id0 th0 = true := by
  induction es with
  | nil => intro s id0 th0 hnot hmark; exact absurd hmark hnot
  | cons e es ih =>
    intro s id0 th0 hnot hmark
    simp only [runEvents] at hmark
    cases hre : runEvent tom wk off sink s e with
    | ok s1 =>
      rw [hre] at hmark
      by_cases hmid : id0 ∈ getSet s1 th0
      · have : id0 ∈ getSet (resultState (runEvent tom wk off sink s e)) th0 := by
          rw [hre]; exact hmid
        exact runEvent_mark_needs_sink tom wk off sink s e id0 th0 hnot this
      · exact ih s1 id0 th0 hmid hmark
    | error s1 =>
      rw [hre] at hmark
      have : id0 ∈ getSet (resultState (runEvent tom wk off sink s e)) th0 := by
        rw [hre]; exact hmark
      exact runEvent_mark_needs_sink tom wk off sink s e id0 th0 hnot this

theorem runEvents_append_ok (tom wk : String) (off : Int → Int)
    (sink : String → Threshold → Bool) (es1 : List GEvent) : ∀ (s s1 : St) (rest : List GEvent),
    runEvents tom wk off sink s es1 = .ok s1 →
    runEvents tom wk off sink s (es1 ++ rest) = runEvents tom wk off sink s1 rest := by
  induction es1 with
  | nil =>
    intro s s1 rest h
    simp only [runEvents] at h
    cases h
    rfl
  | cons e es ih =>
    intro s s1 rest h
    simp only [runEvents] at h ⊢
    cases hre : runEvent tom wk off sink s e with
    | ok s2 =>
      rw [hre] at h
      exact ih s2 s1 rest h
    | error s2 =>
      rw [hre] at h
      cases h

theorem cleanDescription_some (o : Option String) (d : String)
    (h : cleanDescription o = some d) : d ≠ "" ∧ hasTag d.data = false := by
  cases o with
  | none => simp [cleanDescription] at h
  | some s =>
    simp only [cleanDescription] at h
    split at h
    · cases h
    · rename_i hne
      simp only [Option.some.injEq] at h
      subst h
      exact ⟨hne, strippedTrimmed_clean s⟩

theorem fireStep_no_fire (target : String) (th : Threshold) (sink : String → Threshold → Bool)
    (e : GEvent) (st : EventStart) (off : Int → Int) (id ymd : String) (s : St)
    (h : ¬(ymd = target ∧ id ∉ getSet s th)) :
    fireStep target th sink e st off id ymd s = .ok s := by
  unfold fireStep
  rw [if_neg h]

theorem fireStep_sent_le (target : String) (th : Threshold) (sink : String → Threshold → Bool)
    (e : GEvent) (st : EventStart) (off : Int → Int) (id ymd : String) (s : St) :
    (resultState (fireStep target th sink e st off id ymd s)).sent.length ≤ s.sent.length + 1 := by
  cases hfs : fireStep target th sink e st off id ymd s with
  | ok s2 =>
    rcases fireStep_ok_cases target th sink e st off id ymd s s2 hfs with ⟨rfl, -⟩ | ⟨-, -, -, rfl⟩
    · simp [resultState]
    · rw [resultState, sent_addToSet]
      simp
  | error s2 =>
    obtain ⟨-, -, -, rfl⟩ := fireStep_error_cases target th sink e st off id ymd s s2 hfs
    simp [resultState]

theorem fireStep_sentCount_other (target : String) (th : Threshold)
    (sink : String → Threshold → Bool) (e : GEvent) (st : EventStart) (off : Int → Int)
    (id ymd : String) (s : St) (id0 : String) (th0 : Threshold) (hth : th ≠ th0) :
    sentCount (resultState (fireStep target th sink e st off id ymd s)) id0 th0 =
      sentCount s id0 th0 := by
  cases hfs : fireStep target th sink e st off id ymd s with
  | ok s2 =>
    rcases fireStep_ok_cases target th sink e st off id ymd s s2 hfs with ⟨rfl, -⟩ | ⟨-, -, -, rfl⟩
    · rfl
    · rw [resultState, sentCount_addToSet, sentCount_append_one]
      simp [mkNotif, hth]
  | error s2 =>
    obtain ⟨-, -, -, rfl⟩ := fireStep_error_cases target th sink e st off id ymd s s2 hfs
    rw [resultState, sentCount_append_one]
    simp [mkNotif, hth]

theorem runEvent_sent_le (tom wk : String) (off : Int → Int) (sink : String → Threshold → Bool)
    (s : St) (e : GEvent) (hne : tom ≠ wk) :
    (resultState (runEvent tom wk off sink s e)).sent.length ≤ s.sent.length + 1 := by
  rcases runEvent_cases tom wk off sink s e with hr | ⟨id, st, ymd, -, -, -, ⟨s1, hfs, hr⟩ | ⟨s1, hfs, hr⟩⟩
  · rw [hr]; simp [resultState]
  · rcases fireStep_ok_cases tom .oneDay sink e st off id ymd s s1 hfs with ⟨rfl, -⟩ | ⟨hymd, -, -, rfl⟩
    · rw [hr]
      exact fireStep_sent_le wk .oneWeek sink e st off id ymd s1
    · have hwk : fireStep wk .oneWeek sink e st off id ymd
          (addToSet { s with sent := s.sent ++ [mkNotif e st id .oneDay off] } .oneDay id) =
          .ok (addToSet { s with sent := s.sent ++ [mkNotif e st id .oneDay off] } .oneDay id) := by
        apply fireStep_no_fire
        rintro ⟨rfl, -⟩
        exact hne hymd.symm
      rw [hr, hwk, resultState, sent_addToSet]
      simp
  · obtain ⟨-, -, -, rfl⟩ := fireStep_error_cases tom .oneDay sink e st off id ymd s s1 hfs
    rw [hr]
    simp [resultState]


-- ==================== claims ====================

/-- C1 (amended): provided the delivery sink accepts the pair (id, th) in every cycle, at most one notification request is emitted for that pair across any finite sequence of poll cycles started from the empty ledger; and, unconditionally, running the evaluator loop again once the pair is already in its reminded set emits no further request for it. -/
theorem dedup_at_most_once_per_pair (off : Int → Int) (id : String) (th : Threshold)
    (cs : List PollCycle) (hsink : ∀ c ∈ cs, c.sink id th = true) :
    sentCount (runCycles off cs initialSt) id th ≤ 1 ∧
    (∀ (tom wk : String) (sink : String → Threshold → Bool) (s : St) (es : List GEvent),
      id ∈ getSet s th →
      sentCount (resultState (runEvents tom wk off sink s es)) id th = sentCount s id th) := by
  constructor
  · have hinit : pairInv initialSt id th := by
      constructor
      · show sentCount initialSt id th ≤ 1
        cases th <;> simp [sentCount, initialSt]
      · intro h
        cases th <;> simp [sentCount, initialSt]
    exact (runCycles_pairInv off cs initialSt id th hsink hinit).1
  · intro tom wk sink s es hmem
    exact (runEvents_result_marked tom wk off sink es s id th hmem).2

/-- Witness for C1 with two all-success cycles. -/
theorem dedup_at_most_once_per_pair_witness :
    sentCount (runCycles utcOff [cycleOk, cycleOk] initialSt) "a" Threshold.oneDay ≤ 1 ∧
    (∀ (tom wk : String) (sink : String → Threshold → Bool) (s : St) (es : List GEvent),
      "a" ∈ getSet s Threshold.oneDay →
      sentCount (resultState (runEvents tom wk utcOff sink s es)) "a" Threshold.oneDay =
        sentCount s "a" Threshold.oneDay) :=
  dedup_at_most_once_per_pair utcOff "a" Threshold.oneDay [cycleOk, cycleOk]
    (by intro c hc; rcases List.mem_cons.mp hc with rfl | hc2
        · rfl
        · rcases List.mem_cons.mp hc2 with rfl | h
          · rfl
          · cases h)

set_option maxRecDepth 40000 in
/-- C1 (counterexample to the claim as stated): a concrete event that qualifies for the one-day threshold in two consecutive cycles, with delivery failing in the first cycle, receives two notification requests across the two cycles, so the unconditional at-most-once bound on emitted requests is false. -/
theorem dedup_retry_after_failure_counterexample :
    eventYMDOf { date := some "2024-06-10", dateTime := none } utcOff
        = some (ymdInTZ (addDays nowJun9 1) utcOff) ∧
    sentCount (runCycles utcOff [cycleFail, cycleOk] initialSt) "a" Threshold.oneDay = 2 := by
  constructor
  · decide
  · decide

/-- C2 (amended): the code orders send before mark. A pair that was unmarked can be marked by a cycle only if the sink accepted it; when the sink fails for a pair, the cycle leaves that pair unmarked; and a later cycle in which the event qualifies and the pair is unmarked emits a fresh request for it (delivery failures are retried, not dropped). -/
theorem mark_after_send_ordering :
    (∀ (tom wk : String) (off : Int → Int) (sink : String → Threshold → Bool) (s : St)
      (e : GEvent) (id : String) (th : Threshold), id ∉ getSet s th →
      id ∈ getSet (resultState (runEvent tom wk off sink s e)) th → sink id th = true) ∧
    (∀ (off : Int → Int) (c : PollCycle) (s : St) (id : String) (th : Threshold),
      c.sink id th = false →
      (id ∈ getSet (checkCalendarAndNotify off c s) th ↔ id ∈ getSet s th)) ∧
    (∀ (tom wk : String) (off : Int → Int) (sink : String → Threshold → Bool) (s : St)
      (e : GEvent) (st : EventStart) (id D : String),
      e.id = some id → id ≠ "" → e.start = some st → st.date = some D → D ≠ "" →
      st.dateTime = none → D = tom → id ∉ getSet s Threshold.oneDay →
      sentCount (resultState (runEvents tom wk off sink s [e])) id Threshold.oneDay =
        sentCount s id Threshold.oneDay + 1) := by
  refine ⟨?_, ?_, ?_⟩
  · intro tom wk off sink s e id th hnot hmark
    exact runEvent_mark_needs_sink tom wk off sink s e id th hnot hmark
  · intro off c s id th hsink
    unfold checkCalendarAndNotify
    cases hf : c.fetch with
    | error u => exact Iff.rfl
    | ok events =>
      constructor
      · intro hmark
        by_contra hnot
        have := runEvents_mark_needs_sink _ _ off c.sink events s id th hnot hmark
        rw [hsink] at this
        cases this
      · intro hmem
        exact (runEvents_result_marked _ _ off c.sink events s id th hmem).1
  · intro tom wk off sink s e st id D hid hidne hst hdate hDne hdt hDtom hnot
    have htid : truthyId e.id = some id := by
      rw [hid]; simp [truthyId, hidne]
    have hymd : eventYMDOf st off = some D := by
      unfold eventYMDOf
      rw [hdate, hdt]
      simp [truthyStr, hDne]
    have hguard : D = tom ∧ id ∉ getSet s Threshold.oneDay := ⟨hDtom, hnot⟩
    have hday : fireStep tom Threshold.oneDay sink e st off id D s =
        (if sink id Threshold.oneDay then
          Except.ok (addToSet
            { s with sent := s.sent ++ [mkNotif e st id Threshold.oneDay off] }
            Threshold.oneDay id)
         else Except.error
            { s with sent := s.sent ++ [mkNotif e st id Threshold.oneDay off] }) := by
      unfold fireStep
      rw [if_pos hguard]
    simp only [runEvents, runEvent, htid, hst, hymd]
    rw [hday]
    cases hsk : sink id Threshold.oneDay
    · simp only [Bool.false_eq_true, if_false, resultState, sentCount_append_one]
      simp [mkNotif]
    · simp only [if_true]
      have hother := fireStep_sentCount_other wk Threshold.oneWeek sink e st off id D
        (addToSet { s with sent := s.sent ++ [mkNotif e st id Threshold.oneDay off] }
          Threshold.oneDay id) id Threshold.oneDay (by simp)
      cases hwf : fireStep wk Threshold.oneWeek sink e st off id D
          (addToSet { s with sent := s.sent ++ [mkNotif e st id Threshold.oneDay off] }
            Threshold.oneDay id) with
      | ok s3 =>
        rw [hwf] at hother
        dsimp only [resultState] at hother ⊢
        rw [hother, sentCount_addToSet, sentCount_append_one]
        simp [mkNotif]
      | error s3 =>
        rw [hwf] at hother
        dsimp only [resultState] at hother ⊢
        rw [hother, sentCount_addToSet, sentCount_append_one]
        simp [mkNotif]

/-- Witness for C2 at a concrete qualifying event with a failing sink. -/
theorem mark_after_send_ordering_witness :
    sentCount (resultState (runEvents "2024-06-10" "2024-06-16" utcOff sinkAllFail initialSt [evA]))
      "a" Threshold.oneDay = sentCount initialSt "a" Threshold.oneDay + 1 :=
  mark_after_send_ordering.2.2 "2024-06-10" "2024-06-16" utcOff sinkAllFail initialSt evA
    { date := some "2024-06-10", dateTime := none } "a" "2024-06-10"
    rfl (by decide) rfl rfl (by decide) rfl rfl (by decide)

set_option maxRecDepth 40000 in
/-- C2 (counterexample to the claim as stated): with a failing sink, the cycle attempts delivery for the pair (one request emitted) while the pair is never recorded in remindedDay, and the next cycle re-attempts delivery, contradicting both the record-before-delivery ordering and the no-retry consequence. -/
theorem mark_before_send_counterexample :
    sentCount (checkCalendarAndNotify utcOff cycleFail initialSt) "a" Threshold.oneDay = 1 ∧
    "a" ∉ (checkCalendarAndNotify utcOff cycleFail initialSt).remindedDay ∧
    sentCount (checkCalendarAndNotify utcOff cycleOk
      (checkCalendarAndNotify utcOff cycleFail initialSt)) "a" Threshold.oneDay = 2 := by
  refine ⟨by decide, by decide, by decide⟩

/-- C3: an all-day event (start.date present and nonempty, start.dateTime absent) is classified by the evaluator as exactly its start.date string, for every timezone offset function; the classification does not consult the clock at all. -/
theorem allday_date_verbatim (st : EventStart) (off : Int → Int) (D : String)
    (hdate : st.date = some D) (hne : D ≠ "") (hdt : st.dateTime = none) :
    eventYMDOf st off = some D := by
  unfold eventYMDOf
  rw [hdate, hdt]
  simp [truthyStr, hne]

/-- Witness for C3 at a concrete all-day event under the Los Angeles offsets. -/
theorem allday_date_verbatim_witness :
    eventYMDOf { date := some "2024-06-10", dateTime := none } laOffNov2024 = some "2024-06-10" :=
  allday_date_verbatim { date := some "2024-06-10", dateTime := none } laOffNov2024
    "2024-06-10" rfl (by decide) rfl

set_option maxRecDepth 40000 in
/-- C4 (evaluation at the failing input): at 2024-11-03 07:30 UTC, with the host clock in a fixed-offset zone and TIMEZONE = America/Los_Angeles (whose real offsets around the fall-back instant are laOffNov2024), the computed tomorrowYMD equals todayYMD (both 2024-11-03) instead of its calendar successor, and weekYMD is 2024-11-09, six days after today instead of seven. -/
theorem window_dates_dst_eval :
    ymdInTZ nowDstExample laOffNov2024 = "2024-11-03" ∧
    ymdInTZ (addDays nowDstExample 1) laOffNov2024 = "2024-11-03" ∧
    ymdInTZ (addDays nowDstExample 7) laOffNov2024 = "2024-11-09" := by
  refine ⟨by decide, by decide, by decide⟩

/-- C5: when the event fetch fails, the cycle catches the error and returns the state completely unchanged: no notification request is emitted, both reminded sets stay as they were, and nothing propagates to the caller. -/
theorem fetch_failure_leaves_state (off : Int → Int) (now : Int)
    (sink : String → Threshold → Bool) (s : St) :
    checkCalendarAndNotify off { fetch := .error (), now := now, sink := sink } s = s := rfl

/-- C6: an event whose id is absent, whose start is absent, or whose start has neither a date nor a dateTime field is skipped by the evaluator with no state change and no exception. -/
theorem malformed_event_skipped (tom wk : String) (off : Int → Int)
    (sink : String → Threshold → Bool) (s : St) (e : GEvent)
    (h : e.id = none ∨ e.start = none ∨
      (∃ st, e.start = some st ∧ st.date = none ∧ st.dateTime = none)) :
    runEvent tom wk off sink s e = .ok s := by
  rcases h with h | h | ⟨st, hst, hd, hdt⟩
  · have htid : truthyId e.id = none := by rw [h]; rfl
    cases hstart : e.start <;> simp only [runEvent, htid, hstart]
  · cases htid : truthyId e.id <;> simp only [runEvent, htid, h]
  · have hymd : eventYMDOf st off = none := by
      unfold eventYMDOf
      rw [hd, hdt]
      simp [truthyStr]
    cases htid : truthyId e.id <;> simp only [runEvent, htid, hst, hymd]

/-- Witness for C6 at a concrete event whose start has neither field. -/
theorem malformed_event_skipped_witness :
    runEvent "2024-06-10" "2024-06-16" utcOff sinkAllOk initialSt
      { id := some "x", start := some { date := none, dateTime := none },
        summary := none, description := none, htmlLink := none } = .ok initialSt :=
  malformed_event_skipped "2024-06-10" "2024-06-16" utcOff sinkAllOk initialSt
    { id := some "x", start := some { date := none, dateTime := none },
      summary := none, description := none, htmlLink := none }
    (Or.inr (Or.inr ⟨{ date := none, dateTime := none }, rfl, rfl, rfl⟩))

/-- C7: for every clock instant after the epoch and every timezone offset function bounded by real-world offsets, the tomorrow date and the plus-seven-days date computed by a cycle differ, and consequently a single evaluator step on one event emits at most one notification request. -/
theorem threshold_mutual_exclusive (off : Int → Int) (now : Int)
    (hb : ∀ u : Int, -840 ≤ off u ∧ off u ≤ 840) (hn : 840 ≤ now) :
    ymdInTZ (addDays now 1) off ≠ ymdInTZ (addDays now 7) off ∧
    (∀ (sink : String → Threshold → Bool) (s : St) (e : GEvent),
      (resultState (runEvent (ymdInTZ (addDays now 1) off) (ymdInTZ (addDays now 7) off)
        off sink s e)).sent.length ≤ s.sent.length + 1) := by
  have hne := tomorrow_ne_week off now hb hn
  exact ⟨hne, fun sink s e => runEvent_sent_le _ _ off sink s e hne⟩

/-- Witness for C7 at a concrete instant under the zero offset. -/
theorem threshold_mutual_exclusive_witness :
    ymdInTZ (addDays 1000000 1) utcOff ≠ ymdInTZ (addDays 1000000 7) utcOff ∧
    (∀ (sink : String → Threshold → Bool) (s : St) (e : GEvent),
      (resultState (runEvent (ymdInTZ (addDays 1000000 1) utcOff)
        (ymdInTZ (addDays 1000000 7) utcOff) utcOff sink s e)).sent.length
        ≤ s.sent.length + 1) :=
  threshold_mutual_exclusive utcOff 1000000
    (fun u => ⟨by norm_num [utcOff], by norm_num [utcOff]⟩) (by norm_num)

/-- C8: every notification text is the alarm-clock header naming the threshold label, then the bolded title (Untitled event when the summary is absent or empty), then a calendar-emoji date line that is the bare start.date for an all-day event and the timezone-localized date and time for a timed event, then an optional description block whose text is nonempty and free of angle-bracket markup, then an optional link line present exactly when htmlLink is truthy. -/
theorem notification_payload_shape :
    (∀ (e : GEvent) (st : EventStart) (label : String) (off : Int → Int) (D : String),
      e.start = some st → st.date = some D → D ≠ "" → st.dateTime = none →
      sendSlackReminderText e st label off =
        "⏰ *Upcoming event in " ++ label ++ "*\n" ++
        ("*" ++ summaryOr e.summary ++ "*\n") ++
        ("📅 " ++ D ++ "\n") ++
        descBlockOf e.description ++ linkBlockOf e.htmlLink) ∧
    (∀ (e : GEvent) (st : EventStart) (label : String) (off : Int → Int) (t : Int),
      e.start = some st → st.dateTime = some t →
      sendSlackReminderText e st label off =
        "⏰ *Upcoming event in " ++ label ++ "*\n" ++
        ("*" ++ summaryOr e.summary ++ "*\n") ++
        ("📅 " ++ formatLocalDateTime t off ++ "\n") ++
        descBlockOf e.description ++ linkBlockOf e.htmlLink) ∧
    (∀ (o : Option String) (d : String), cleanDescription o = some d →
      d ≠ "" ∧ hasTag d.data = false) ∧
    (∀ o : Option String, descBlockOf o = "" ∨
      ∃ d, cleanDescription o = some d ∧ descBlockOf o = "\n📝 " ++ d ++ "\n" ∧
        d ≠ "" ∧ hasTag d.data = false) ∧
    (∀ o : Option String, truthyStr o = false → linkBlockOf o = "") ∧
    (∀ L : String, L ≠ "" → linkBlockOf (some L) = "🔗 <" ++ L ++ "|Open in Google Calendar>") := by
  refine ⟨?_, ?_, ?_, ?_, ?_, ?_⟩
  · intro e st label off D hst hdate hne hdt
    unfold sendSlackReminderText
    rw [hdate, hdt]
    simp only [truthyStr, Option.isNone_none, Bool.and_true, summaryOr, descBlockOf, linkBlockOf]
    have hD : (!(D == "")) = true := by simp [hne]
    rw [hD]
    simp only [if_true]
    cases hdesc : cleanDescription e.description <;>
      cases hlink : e.htmlLink <;>
      dsimp only <;>
      (try split) <;>
      (apply String.ext; simp_all [String.data_append])
  · intro e st label off t hst hdt
    unfold sendSlackReminderText
    rw [hdt]
    simp only [Option.isNone_some, Bool.and_false, if_false, summaryOr, descBlockOf, linkBlockOf]
    cases hdesc : cleanDescription e.description <;>
      cases hlink : e.htmlLink <;>
      dsimp only <;>
      (try split) <;>
      (apply String.ext; simp_all [String.data_append])
  · intro o d h
    exact cleanDescription_some o d h
  · intro o
    cases hdesc : cleanDescription o with
    | none => left; simp [descBlockOf, hdesc]
    | some d =>
      right
      obtain ⟨hne, hclean⟩ := cleanDescription_some o d hdesc
      exact ⟨d, rfl, by simp [descBlockOf, hdesc], hne, hclean⟩
  · intro o h
    cases o with
    | none => rfl
    | some l =>
      simp only [truthyStr] at h
      simp only [linkBlockOf]
      rw [if_pos]
      simpa using h
  · intro L h
    simp only [linkBlockOf]
    rw [if_neg h]

/-- Witness for C8 at a concrete all-day event with a description and a link. -/
theorem notification_payload_shape_witness :
    sendSlackReminderText evB { date := some "2024-06-10", dateTime := none } "1 week" utcOff =
      "⏰ *Upcoming event in " ++ "1 week" ++ "*\n" ++
      ("*" ++ summaryOr evB.summary ++ "*\n") ++
      ("📅 " ++ "2024-06-10" ++ "\n") ++
      descBlockOf evB.description ++ linkBlockOf evB.htmlLink :=
  notification_payload_shape.1 evB { date := some "2024-06-10", dateTime := none }
    "1 week" utcOff "2024-06-10" rfl rfl (by decide) rfl

/-- C9: if the delivery sink throws for the event after a prefix of the batch, the whole cycle ends in that error state no matter what events follow, so no later event of the batch is classified, delivered, or marked in that cycle, and the failing pair itself is recorded as attempted but not added to its reminded set. -/
theorem delivery_failure_aborts_batch (tom wk : String) (off : Int → Int)
    (sink : String → Threshold → Bool) (s s1 s2 : St) (es1 : List GEvent) (e : GEvent)
    (h1 : runEvents tom wk off sink s es1 = .ok s1)
    (h2 : runEvent tom wk off sink s1 e = .error s2) :
    (∀ es2 : List GEvent, runEvents tom wk off sink s (es1 ++ e :: es2) = .error s2) ∧
    (∃ id th, truthyId e.id = some id ∧ sink id th = false ∧
      getSet s2 th = getSet s1 th ∧ id ∉ getSet s2 th) := by
  constructor
  · intro es2
    rw [runEvents_append_ok tom wk off sink es1 s s1 (e :: es2) h1]
    simp only [runEvents]
    rw [h2]
  · rcases runEvent_cases tom wk off sink s1 e with
      hr | ⟨id, st, ymd, htid, -, -, ⟨sm, hfs, hr⟩ | ⟨sm, hfs, hr⟩⟩
    · rw [h2] at hr; cases hr
    · rw [h2] at hr
      obtain ⟨-, hnm, hsf, hs2⟩ := fireStep_error_cases wk Threshold.oneWeek sink e st off id ymd sm s2 hr.symm
      have hwkset : getSet sm Threshold.oneWeek = getSet s1 Threshold.oneWeek := by
        rcases fireStep_ok_cases tom Threshold.oneDay sink e st off id ymd s1 sm hfs with
          ⟨rfl, -⟩ | ⟨-, -, -, rfl⟩
        · rfl
        · rw [getSet_addToSet]
          simp [getSet_sent_update]
      refine ⟨id, Threshold.oneWeek, htid, hsf, ?_, ?_⟩
      · rw [hs2, getSet_sent_update, hwkset]
      · rw [hs2, getSet_sent_update, hwkset]
        rw [hwkset] at hnm
        exact hnm
    · rw [h2] at hr
      have hsm : sm = s2 := by
        injection hr with h
        exact h.symm
      subst hsm
      obtain ⟨-, hnm, hsf, hs2⟩ :=
        fireStep_error_cases tom Threshold.oneDay sink e st off id ymd s1 sm hfs
      refine ⟨id, Threshold.oneDay, htid, hsf, ?_, ?_⟩
      · rw [hs2, getSet_sent_update]
      · rw [hs2, getSet_sent_update]
        exact hnm

/-- Witness for C9 at a concrete one-event batch with a failing sink. -/
theorem delivery_failure_aborts_batch_witness :
    (∀ es2 : List GEvent,
      runEvents "2024-06-10" "2024-06-16" utcOff sinkAllFail initialSt (([] : List GEvent) ++ evA :: es2)
        = .error errStA) ∧
    (∃ id th, truthyId evA.id = some id ∧ sinkAllFail id th = false ∧
      getSet errStA th = getSet initialSt th ∧ id ∉ getSet errStA th) :=
  delivery_failure_aborts_batch "2024-06-10" "2024-06-16" utcOff sinkAllFail
    initialSt initialSt errStA [] evA rfl (by rfl)

/-- C10: cleanDescription returns none exactly when the input is absent or strips and trims to the empty string; otherwise it returns the stripped-and-trimmed text, which is nonempty and contains no remaining angle-bracket tag (no occurrence of a < with a later >), so a notification never carries an empty description paragraph. -/
theorem cleanDescription_spec :
    cleanDescription none = none ∧
    (∀ s : String, cleanDescription (some s) = none ↔ strippedTrimmed s = "") ∧
    (∀ s : String, strippedTrimmed s ≠ "" → cleanDescription (some s) = some (strippedTrimmed s)) ∧
    (∀ (s t : String), cleanDescription (some s) = some t →
      t = strippedTrimmed s ∧ t ≠ "" ∧ hasTag t.data = false) := by
  refine ⟨rfl, ?_, ?_, ?_⟩
  · intro s
    simp only [cleanDescription]
    split
    · rename_i h; simp [h]
    · rename_i h; simp [h]
  · intro s h
    simp only [cleanDescription]
    rw [if_neg h]
  · intro s t h
    simp only [cleanDescription] at h
    split at h
    · cases h
    · rename_i hne
      simp only [Option.some.injEq] at h
      subst h
      exact ⟨rfl, hne, strippedTrimmed_clean s⟩

/-- Witness for C10 at a concrete input containing a tag. -/
theorem cleanDescription_spec_witness :
    "ac" = strippedTrimmed "a<b>c" ∧ "ac" ≠ "" ∧ hasTag ("ac" : String).data = false :=
  cleanDescription_spec.2.2.2 "a<b>c" "ac" (by decide)

